import Mathlib

/-!
# SocialNumberGenerator

A shallow embedding of `src/main.cpp`: the two jurisdiction generators
(`SoutheriaSocialNumberGenerator`, `NortheriaSocialNumberGenerator`), the shared
`SocialNumberGenerator::Generate` routine with its weighted checksum, and the
`SocialNumberGeneratorFactory` lookup.

Conventions of the embedding.

* `unsigned` values are natural numbers reduced modulo `2 ^ 32`, `size_t` values
  modulo `2 ^ 64`, and `int` values are integers.
* The pair `eng_`/`ud_` is a deterministic source of draws.  Its state is
  represented by the sequence of values that the successive calls `ud_(eng_)`
  return: `eng_ 0` is the next draw, and drawing shifts the sequence by one.
* `cache_` (a `std::map<unsigned, int>`) is an association list with at most one
  entry per key; the program never iterates over it, so only `find` and
  `operator[]` assignment are modelled.
* The `while (true)` loop of `NextRandom` is run with an explicit iteration
  budget; `none` means the budget was exhausted before the loop returned.
* `GetGenerator` reads its `std::string_view` argument only through `data()`, as a
  C string; its argument here is the character array found at that address.
-/

namespace SocialNumberGenerator

/-! ## Machine arithmetic -/

/-- Number of values of the 32-bit type `unsigned`. -/
def UINT : Nat := 2 ^ 32

/-- Number of values of the 64-bit type `size_t`. -/
def SIZE : Nat := 2 ^ 64

/-- Conversion of an `int` to `unsigned` (reduction modulo `2 ^ 32`). -/
def toUnsigned (x : Int) : Nat := (x % (UINT : Int)).toNat

/-- Conversion of an `int` to `size_t` (reduction modulo `2 ^ 64`). -/
def toSizeT (x : Int) : Nat := (x % (SIZE : Int)).toNat

/-! ## Data model -/

/-- The enumeration `enum class SexType { FEMALE, MALE }`. -/
inductive SexType where
  | FEMALE
  | MALE
deriving DecidableEq, Repr

/-- The two concrete subclasses of `SocialNumberGenerator`. -/
inductive Policy where
  | Southeria
  | Northeria
deriving DecidableEq, Repr

/-- The member `std::map<unsigned, int> cache_`. -/
abbrev Cache := List (Nat × Int)

/-- The call `cache_.find(k)`: the value stored under key `k`, if any. -/
def Cache.find (c : Cache) (k : Nat) : Option Int :=
  match c with
  | [] => none
  | (k', v) :: rest => if k' = k then some v else Cache.find rest k

/-- The assignment `cache_[k] = v`: the entry under `k` is created or replaced. -/
def Cache.assign (c : Cache) (k : Nat) (v : Int) : Cache :=
  match c with
  | [] => [(k, v)]
  | (k', v') :: rest => if k' = k then (k, v) :: rest else (k', v') :: Cache.assign rest k v

/-- The mutable members of one generator object: the cache and the random source. -/
structure State where
  cache_ : Cache
  eng_ : Nat → Int

/-- The state of a freshly constructed generator whose random source yields `draws`. -/
def State.fresh (draws : Nat → Int) : State := { cache_ := [], eng_ := draws }

/-- One call `ud_(eng_)`: the value drawn and the advanced random source. -/
def draw (st : State) : Int × State :=
  (st.eng_ 0, { st with eng_ := fun n => st.eng_ (n + 1) })

/-- A random source that yields the values of `l` in order and `d` ever after. -/
def drawsOf (l : List Int) (d : Int) : Nat → Int := fun n => l.getD n d

/-! ## The jurisdiction policies -/

/-- The constructor arguments `min`, `max` handed to `ud_`. -/
def range : Policy → Int × Int
  | .Southeria => (1000, 9999)
  | .Northeria => (10000, 99999)

/-- The virtual `SexDigit`, per subclass. -/
def SexDigit : Policy → SexType → Int
  | .Southeria, sex => if sex = SexType.FEMALE then 1 else 2
  | .Northeria, sex => if sex = SexType.FEMALE then 9 else 7

/-- The virtual `ModuloValue`, per subclass. -/
def ModuloValue : Policy → Int
  | .Southeria => 11
  | .Northeria => 11

/-- The local `key` of `NextRandom`, computed in `unsigned` arithmetic. -/
def dateKey : Policy → Nat → Nat → Nat → Nat
  | .Southeria, year, month, day => (((year * 1000) % UINT + (month * 100) % UINT) % UINT + day) % UINT
  | .Northeria, year, month, day => (((year * 10000) % UINT + (month * 100) % UINT) % UINT + day) % UINT

/-- The `while (true)` loop of `NextRandom`, identical in both subclasses, run for at
most `fuel` iterations.  Each iteration draws `number`, looks it up with
`cache_.find(number)` (an `int` converted to the `unsigned` key type), and returns it
after `cache_[key] = number` when the lookup finds nothing. -/
def nextRandomLoop (key : Nat) : Nat → State → Option (Int × State)
  | 0, _ => none
  | fuel + 1, st =>
    let (number, st1) := draw st
    match st1.cache_.find (toUnsigned number) with
    | none => some (number, { st1 with cache_ := st1.cache_.assign key number })
    | some _ => nextRandomLoop key fuel st1

/-- The virtual `NextRandom(year, month, day)`, per subclass. -/
def NextRandom (p : Policy) (fuel : Nat) (year month day : Nat) (st : State) :
    Option (Int × State) :=
  nextRandomLoop (dateKey p year month day) fuel st

/-! ## Generate -/

/-- The lambda handed to `std::accumulate`: with the captured `index` (a `size_t`) and
the running `unsigned` sum `s`, it returns
`s + static_cast<unsigned int>(index-- * (c - '0'))`. -/
def accumulateStep (acc : Nat × Nat) (c : Char) : Nat × Nat :=
  let s := acc.1
  let index := acc.2
  let product := toSizeT ((index : Int) * ((c.toNat : Int) - 48))
  ((s + product % UINT) % UINT, (index + SIZE - 1) % SIZE)

/-- The value of `sum` in `Generate`: `std::accumulate` over the characters of `number`,
starting from `0u` with `index = number.length()`. -/
def accumulate (number : String) : Nat :=
  (number.data.foldl accumulateStep (0, number.length % SIZE)).1

/-- The value streamed last in `Generate`: `ModuloValue() - rest` with
`rest = sum % ModuloValue()`, both in `unsigned` arithmetic. -/
def checksumOf (p : Policy) (number : String) : Nat :=
  let modulo := toUnsigned (ModuloValue p)
  let rest := accumulate number % modulo
  (modulo + UINT - rest) % UINT

/-- The characters streamed into `snumber` before `NextRandom` is called. -/
def header (p : Policy) (sex : SexType) (year month day : Nat) : String :=
  toString (SexDigit p sex) ++ toString year ++ toString month ++ toString day

/-- The method `SocialNumberGenerator::Generate`. -/
def Generate (p : Policy) (fuel : Nat) (sex : SexType) (year month day : Nat) (st : State) :
    Option (String × State) :=
  let snumber := header p sex year month day
  match NextRandom p fuel year month day st with
  | none => none
  | some (r, st1) =>
    let number := snumber ++ toString r
    some (number ++ toString (checksumOf p number), st1)

/-! ## The factory -/

/-- The outcome of `GetGenerator`: a generator or the thrown `std::runtime_error`. -/
inductive LookupError where
  | invalidCountry
deriving DecidableEq, Repr

deriving instance DecidableEq for Except

/-- The entries of `generators_` as filled by the factory constructor. -/
def generators_ : List (String × Policy) :=
  [("northeria", Policy.Northeria), ("southeria", Policy.Southeria)]

/-- The conversion of `country.data()` to the `std::string` key handed to `find`.  The code
reads the character array at `country.data()` up to, not including, its first NUL, and
never reads `country.size()`.  Accordingly `country` stands for the characters stored
from `country.data()` on, up to the end of the underlying array, whose closing NUL is
left implicit.  For a string literal or a `std::string` argument these are the characters
of the view; for a view that ends before its array does (a view of the first characters
of a longer string) they include the characters behind the view, which the code reads
too.  A view whose `data()` is null has no array and is not an input of this model. -/
def cString (country : String) : String :=
  String.mk (country.data.takeWhile (fun c => c ≠ Char.ofNat 0))

/-- The method `SocialNumberGeneratorFactory::GetGenerator`, as a function of the
character array at `country.data()` (see `cString`). -/
def GetGenerator (country : String) : Except LookupError Policy :=
  match generators_.lookup (cString country) with
  | some g => Except.ok g
  | none => Except.error LookupError.invalidCountry

/-! ## Specification-side definitions -/

/-- A character is one of the ten decimal digits. -/
def IsDigitChar (c : Char) : Prop := 48 ≤ c.toNat ∧ c.toNat ≤ 57

instance (c : Char) : Decidable (IsDigitChar c) := by unfold IsDigitChar; infer_instance

/-- The digit value of a character, `c - '0'`. -/
def digitValue (c : Char) : Nat := c.toNat - 48

/-- The digit values of the characters of a string. -/
def digitsOfString (s : String) : List Nat := s.data.map digitValue

/-- The weighted sum of section 4.1: with `n` the length of the sequence, the digit at
(zero-based) position `i` has weight `n - i`, so the first digit has weight `n` and the
last digit has weight 1. -/
def weightedSum (ds : List Nat) : Nat :=
  ((List.range ds.length).map (fun i => (ds.length - i) * ds.getD i 0)).sum

/-- The checksum of section 4.1 for a modulus and a digit sequence: `modulus - rest`
with `rest = sum mod modulus`. -/
def specChecksum (m : Nat) (ds : List Nat) : Nat := m - weightedSum ds % m

/-- The string without its last `k` characters. -/
def dropLast (s : String) (k : Nat) : String := String.mk (s.data.take (s.data.length - k))

/-- The last `k` characters of the string. -/
def takeLast (s : String) (k : Nat) : String := String.mk (s.data.drop (s.data.length - k))

/-- The weighted sum of section 4.1 by recursion on the sequence: the head is weighted
by the length of the sequence. -/
def weightedSumRec : List Nat → Nat
  | [] => 0
  | d :: ds => (ds.length + 1) * d + weightedSumRec ds

/-! ## Sample states -/

/-- A cache of the Northeria generator holding every value of its range as a key:
`10000 ↦ 99999`, ..., `99999 ↦ 99999`.  It is the cache after the 90000 calls
`NextRandom(y, m, d)` for `1 ≤ y ≤ 9`, `m ≤ 99`, `d ≤ 99` in increasing key order, each of
which drew 99999 first. -/
def exhaustedCache : Cache := (List.range' 10000 90000).map (fun k => (k, 99999))

/-- A random source of the Northeria generator that runs through its whole range. -/
def cyclingDraws : Nat → Int := fun n => 10000 + ((n % 90000 : Nat) : Int)

/-- A cache of the Southeria generator holding every value of its range as a key:
`1000 ↦ 9999`, ..., `9999 ↦ 9999`.  It is the cache after the 9000 calls
`NextRandom(y, m, d)` for `1 ≤ y ≤ 9`, `m ≤ 9`, `d ≤ 99` in increasing key order, each of
which drew 9999 first. -/
def exhaustedCacheSoutheria : Cache := (List.range' 1000 9000).map (fun k => (k, 9999))

/-- A random source of the Southeria generator that runs through its whole range. -/
def cyclingDrawsSoutheria : Nat → Int := fun n => 1000 + ((n % 9000 : Nat) : Int)

/-! ## Sequences of calls -/

/-- A date handed to `NextRandom`: year, month, day. -/
abbrev Date := Nat × Nat × Nat

/-- The calls `NextRandom(year, month, day)` for the dates of the list, made one after
the other on the same generator, each with the iteration budget `fuel`: the values
returned, in order, and the final state; `none` when a call exhausts its budget. -/
def runCalls (p : Policy) (fuel : Nat) : List Date → State → Option (List Int × State)
  | [], st => some ([], st)
  | (year, month, day) :: rest, st =>
    match NextRandom p fuel year month day st with
    | none => none
    | some (r, st1) =>
      match runCalls p fuel rest st1 with
      | none => none
      | some (rs, st2) => some (r :: rs, st2)

/-! ## Decimal rendering -/

theorem digitChar_isDigit {k : Nat} (h : k < 10) : IsDigitChar (Nat.digitChar k) := by
  interval_cases k <;> decide

theorem toDigitsCore_isDigit (fuel : Nat) : ∀ (n : Nat) (ds : List Char),
    (∀ c ∈ ds, IsDigitChar c) → ∀ c ∈ Nat.toDigitsCore 10 fuel n ds, IsDigitChar c := by
  induction fuel with
  | zero =>
    intro n ds h c hc
    exact h c (by simpa [Nat.toDigitsCore] using hc)
  | succ f ih =>
    intro n ds h c hc
    have hd : ∀ c' ∈ Nat.digitChar (n % 10) :: ds, IsDigitChar c' := by
      intro c' hc'
      rcases List.mem_cons.1 hc' with rfl | hc'
      · exact digitChar_isDigit (Nat.mod_lt _ (by decide))
      · exact h c' hc'
    simp only [Nat.toDigitsCore] at hc
    split at hc
    · exact hd c hc
    · exact ih (n / 10) _ hd c hc

theorem natRepr_isDigit (n : Nat) : ∀ c ∈ (toString n).data, IsDigitChar c := by
  intro c hc
  exact toDigitsCore_isDigit (n + 1) n [] (by simp) c hc

theorem toDigitsCore_length_append (fuel n : Nat) (ds : List Char) :
    (Nat.toDigitsCore 10 fuel n ds).length = (Nat.toDigitsCore 10 fuel n []).length + ds.length := by
  induction ds with
  | nil => simp
  | cons c cs ih => rw [Nat.toDigitsCore_lens_eq, ih]; simp; omega

theorem toDigitsCore_length_ge (fuel : Nat) : ∀ (n k : Nat), n < fuel → 10 ^ k ≤ n →
    k + 1 ≤ (Nat.toDigitsCore 10 fuel n []).length := by
  induction fuel with
  | zero => intro n k h; omega
  | succ f ih =>
    intro n k hn hk
    simp only [Nat.toDigitsCore]
    cases k with
    | zero =>
      split
      · simp
      · rw [toDigitsCore_length_append]; simp
    | succ k =>
      have h10 : 10 ^ k ≤ n / 10 := by
        rw [Nat.le_div_iff_mul_le (by decide)]
        rw [pow_succ] at hk; exact hk
      have hpos : 0 < 10 ^ k := Nat.pow_pos (by decide)
      have hne : ¬ n / 10 = 0 := by omega
      rw [if_neg hne, toDigitsCore_length_append]
      have := ih (n / 10) k (by omega) h10
      simp; omega

theorem natRepr_length_eq (n k : Nat) (hlo : 10 ^ k ≤ n) (hhi : n < 10 ^ (k + 1)) :
    (toString n).length = k + 1 := by
  have h1 : (toString n).length ≤ k + 1 := Nat.repr_length n (k + 1) (by omega) hhi
  have h2 : k + 1 ≤ (toString n).length := toDigitsCore_length_ge (n + 1) n k (by omega) hlo
  omega

theorem natRepr_length_le (n : Nat) (h : n < UINT) : (toString n).length ≤ 10 :=
  Nat.repr_length n 10 (by decide) (lt_of_lt_of_le h (by decide))

theorem intRepr_of_nonneg (r : Int) (h : 0 ≤ r) : toString r = toString r.toNat := by
  obtain ⟨n, rfl⟩ := Int.eq_ofNat_of_zero_le h
  rfl

/-! ## The weighted sum -/

theorem weightedSum_cons (d : Nat) (ds : List Nat) :
    weightedSum (d :: ds) = (ds.length + 1) * d + weightedSum ds := by
  unfold weightedSum
  rw [List.length_cons, List.range_succ_eq_map, List.map_cons, List.sum_cons, List.map_map]
  congr 1
  congr 1
  apply List.map_congr_left
  intro i _
  simp

theorem weightedSum_eq_rec (ds : List Nat) : weightedSum ds = weightedSumRec ds := by
  induction ds with
  | nil => rfl
  | cons d ds ih => rw [weightedSum_cons, weightedSumRec, ih]

theorem weightedSum_le (ds : List Nat) (h : ∀ d ∈ ds, d ≤ 9) :
    weightedSum ds ≤ 9 * (ds.length * ds.length) := by
  induction ds with
  | nil => simp [weightedSum]
  | cons d ds ih =>
    rw [weightedSum_cons, List.length_cons]
    have hd : d ≤ 9 := h d (List.mem_cons_self _ _)
    have := ih (fun x hx => h x (List.mem_cons_of_mem _ hx))
    have h1 : (ds.length + 1) * d ≤ (ds.length + 1) * 9 := Nat.mul_le_mul_left _ hd
    nlinarith

theorem digitValue_le {c : Char} (h : IsDigitChar c) : digitValue c ≤ 9 := by
  unfold IsDigitChar at h; unfold digitValue; omega

theorem toSizeT_of_lt (x : Nat) (h : x < SIZE) : toSizeT (x : Int) = x := by
  unfold toSizeT
  rw [Int.emod_eq_of_lt (by omega) (by exact_mod_cast h)]
  simp

theorem accumulateStep_digit (s n : Nat) (c : Char) (hc : IsDigitChar c)
    (hn : n + 1 < SIZE) (hs : s + (n + 1) * digitValue c < UINT) :
    accumulateStep (s, n + 1) c = (s + (n + 1) * digitValue c, n) := by
  have hU : UINT < SIZE := by decide
  have hcast : (((n + 1 : Nat) : Int) * ((c.toNat : Int) - 48)) = (((n + 1) * digitValue c : Nat) : Int) := by
    unfold IsDigitChar at hc; unfold digitValue
    push_cast
    rw [Nat.cast_sub hc.1]
    simp
  unfold accumulateStep
  simp only
  rw [hcast, toSizeT_of_lt _ (by omega), Nat.mod_eq_of_lt (by omega : (n + 1) * digitValue c < UINT),
    Nat.mod_eq_of_lt hs]
  have hidx : (n + 1 + SIZE - 1) % SIZE = n := by
    have : n + 1 + SIZE - 1 = n + SIZE := by omega
    rw [this, Nat.add_mod_right, Nat.mod_eq_of_lt (by omega)]
  rw [hidx]

theorem foldl_accumulateStep (l : List Char) : ∀ s : Nat,
    (∀ c ∈ l, IsDigitChar c) → l.length < SIZE → s + weightedSum (l.map digitValue) < UINT →
    l.foldl accumulateStep (s, l.length) = (s + weightedSum (l.map digitValue), 0) := by
  induction l with
  | nil => intro s _ _ _; simp [weightedSum]
  | cons c cs ih =>
    intro s hd hlen hsum
    rw [List.map_cons, weightedSum_cons, List.length_map] at hsum
    rw [List.foldl_cons, List.length_cons,
      accumulateStep_digit s cs.length c (hd c (List.mem_cons_self _ _)) (by simpa using hlen) (by omega),
      ih _ (fun x hx => hd x (List.mem_cons_of_mem _ hx)) (by simp at hlen; omega) (by omega),
      List.map_cons, weightedSum_cons, List.length_map]
    congr 1
    omega

/-- On a string of at most 41 decimal digits the `unsigned` accumulation of `Generate`
is the exact weighted sum of section 4.1. -/
theorem accumulate_eq_weightedSum (number : String) (hd : ∀ c ∈ number.data, IsDigitChar c)
    (hlen : number.length ≤ 41) : accumulate number = weightedSum (digitsOfString number) := by
  have hb : weightedSum (digitsOfString number) ≤ 9 * (41 * 41) := by
    refine le_trans (weightedSum_le _ ?_) ?_
    · intro d hdm
      obtain ⟨c, hc, rfl⟩ := List.mem_map.1 hdm
      exact digitValue_le (hd c hc)
    · have : (digitsOfString number).length ≤ 41 := by simpa [digitsOfString] using hlen
      exact Nat.mul_le_mul_left _ (Nat.mul_le_mul this this)
  have hS : number.length < SIZE := lt_of_le_of_lt hlen (by decide)
  have hU : 9 * (41 * 41) < UINT := by decide
  unfold accumulate
  rw [Nat.mod_eq_of_lt hS]
  have := foldl_accumulateStep number.data 0 hd hS (by unfold digitsOfString at hb; omega)
  rw [String.length, this]
  simp [digitsOfString]

/-! ## The retry loop -/

/-- What a returning run of the retry loop did: it returned the draw at some position
`j` below the budget, that draw is not a key of the cache, every earlier draw is, the
cache gained the entry `key ↦ r`, and the random source advanced past position `j`. -/
theorem nextRandomLoop_some (key : Nat) : ∀ (fuel : Nat) (st : State) (r : Int) (st' : State),
    nextRandomLoop key fuel st = some (r, st') →
    ∃ j, j < fuel ∧ r = st.eng_ j ∧ st.cache_.find (toUnsigned r) = none ∧
      (∀ i, i < j → st.cache_.find (toUnsigned (st.eng_ i)) ≠ none) ∧
      st' = { cache_ := st.cache_.assign key r, eng_ := fun n => st.eng_ (n + (j + 1)) } := by
  intro fuel
  induction fuel with
  | zero => intro st r st' h; simp [nextRandomLoop] at h
  | succ f ih =>
    intro st r st' h
    simp only [nextRandomLoop, draw] at h
    split at h
    · rename_i hfind
      simp only [Option.some.injEq, Prod.mk.injEq] at h
      obtain ⟨rfl, rfl⟩ := h
      exact ⟨0, by omega, rfl, hfind, by intro i hi; omega, rfl⟩
    · rename_i v hfind
      obtain ⟨j, hj, hr, hnone, hbefore, hst⟩ := ih _ r st' h
      refine ⟨j + 1, by omega, hr, hnone, ?_, ?_⟩
      · intro i hi
        cases i with
        | zero => rw [hfind]; simp
        | succ i => exact hbefore i (by omega)
      · rw [hst]
        simp only [State.mk.injEq, true_and]
        funext n
        show st.eng_ (n + (j + 1) + 1) = st.eng_ (n + (j + 1 + 1))
        rfl

/-- The retry loop never returns while every draw to come is a key of the cache. -/
theorem nextRandomLoop_none (key : Nat) : ∀ (fuel : Nat) (st : State),
    (∀ n, st.cache_.find (toUnsigned (st.eng_ n)) ≠ none) → nextRandomLoop key fuel st = none := by
  intro fuel
  induction fuel with
  | zero => intro st _; rfl
  | succ f ih =>
    intro st h
    simp only [nextRandomLoop, draw]
    split
    · rename_i hfind
      exact absurd hfind (h 0)
    · exact ih _ (fun n => h (n + 1))

/-- The retry loop returns the first draw that is not a key of the cache, as soon as the
budget exceeds its position. -/
theorem nextRandomLoop_of_free (key : Nat) : ∀ (j fuel : Nat) (st : State), j < fuel →
    st.cache_.find (toUnsigned (st.eng_ j)) = none →
    (∀ i, i < j → st.cache_.find (toUnsigned (st.eng_ i)) ≠ none) →
    nextRandomLoop key fuel st = some (st.eng_ j,
      { cache_ := st.cache_.assign key (st.eng_ j), eng_ := fun n => st.eng_ (n + (j + 1)) }) := by
  intro j
  induction j with
  | zero =>
    intro fuel st hf hfree _
    obtain ⟨f, rfl⟩ : ∃ f, fuel = f + 1 := ⟨fuel - 1, by omega⟩
    simp only [nextRandomLoop, draw]
    rw [hfree]
  | succ j ih =>
    intro fuel st hf hfree hbefore
    obtain ⟨f, rfl⟩ : ∃ f, fuel = f + 1 := ⟨fuel - 1, by omega⟩
    simp only [nextRandomLoop, draw]
    split
    · rename_i hfind
      exact absurd hfind (hbefore 0 (by omega))
    · have := ih f { cache_ := st.cache_, eng_ := fun n => st.eng_ (n + 1) } (by omega) hfree
        (fun i hi => hbefore (i + 1) (by omega))
      rw [this]
      simp only [Option.some.injEq, Prod.mk.injEq, State.mk.injEq, true_and]
      funext n
      show st.eng_ (n + (j + 1) + 1) = st.eng_ (n + (j + 1 + 1))
      rfl

/-! ## Generate: shared lemmas -/

theorem moduloValue_eq (p : Policy) : ModuloValue p = 11 := by cases p <;> rfl

theorem toUnsigned_moduloValue (p : Policy) : toUnsigned (ModuloValue p) = 11 := by
  rw [moduloValue_eq]; decide

/-- The `unsigned` subtraction `ModuloValue() - rest` does not wrap. -/
theorem checksumOf_eq (p : Policy) (number : String) :
    checksumOf p number = 11 - accumulate number % 11 := by
  unfold checksumOf
  simp only [toUnsigned_moduloValue]
  have h : accumulate number % 11 < 11 := Nat.mod_lt _ (by decide)
  have hU : UINT = 4294967296 := by decide
  rw [hU]
  omega

theorem checksumOf_bounds (p : Policy) (number : String) :
    1 ≤ checksumOf p number ∧ checksumOf p number ≤ 11 := by
  rw [checksumOf_eq]
  have h : accumulate number % 11 < 11 := Nat.mod_lt _ (by decide)
  omega

theorem sexDigit_repr (p : Policy) (sex : SexType) :
    (toString (SexDigit p sex)).data = [Nat.digitChar (SexDigit p sex).toNat] := by
  cases p <;> cases sex <;> decide

theorem sexDigit_isDigit (p : Policy) (sex : SexType) :
    ∀ c ∈ (toString (SexDigit p sex)).data, IsDigitChar c := by
  cases p <;> cases sex <;> decide

theorem header_data (p : Policy) (sex : SexType) (year month day : Nat) :
    (header p sex year month day).data = (toString (SexDigit p sex)).data ++
      (toString year).data ++ (toString month).data ++ (toString day).data := by
  simp [header, String.data_append]

theorem header_isDigit (p : Policy) (sex : SexType) (year month day : Nat) :
    ∀ c ∈ (header p sex year month day).data, IsDigitChar c := by
  intro c hc
  rw [header_data] at hc
  simp only [List.mem_append] at hc
  rcases hc with ((hc | hc) | hc) | hc
  · exact sexDigit_isDigit p sex c hc
  · exact natRepr_isDigit year c hc
  · exact natRepr_isDigit month c hc
  · exact natRepr_isDigit day c hc

theorem header_length (p : Policy) (sex : SexType) (year month day : Nat)
    (hy : year < UINT) (hm : month < UINT) (hd : day < UINT) :
    (header p sex year month day).length ≤ 31 := by
  have h1 := natRepr_length_le year hy
  have h2 := natRepr_length_le month hm
  have h3 := natRepr_length_le day hd
  have h0 : (toString (SexDigit p sex)).length = 1 := by
    rw [String.length, sexDigit_repr]; rfl
  simp only [header, String.length_append]
  omega

/-- The pre-checksum string of `Generate` is a string of at most 41 decimal digits when
the random segment is a non-negative `int`. -/
theorem number_digits (p : Policy) (sex : SexType) (year month day : Nat) (r : Int)
    (hy : year < UINT) (hm : month < UINT) (hd : day < UINT) (hr0 : 0 ≤ r) (hr1 : r < 2 ^ 31) :
    (∀ c ∈ (header p sex year month day ++ toString r).data, IsDigitChar c) ∧
      (header p sex year month day ++ toString r).length ≤ 41 := by
  rw [intRepr_of_nonneg r hr0]
  constructor
  · intro c hc
    rw [String.data_append, List.mem_append] at hc
    rcases hc with hc | hc
    · exact header_isDigit p sex year month day c hc
    · exact natRepr_isDigit _ c hc
  · have h1 := header_length p sex year month day hy hm hd
    have h2 : (toString r.toNat).length ≤ 10 :=
      natRepr_length_le _ (by unfold UINT; omega)
    rw [String.length_append]
    omega

theorem dropLast_append (a b : String) : dropLast (a ++ b) b.length = a := by
  unfold dropLast
  rw [String.data_append, List.length_append, String.length, Nat.add_sub_cancel, List.take_left']
  rfl

theorem takeLast_append (a b : String) : takeLast (a ++ b) b.length = b := by
  unfold takeLast
  rw [String.data_append, List.length_append, String.length, Nat.add_sub_cancel, List.drop_left']
  rfl

theorem checksum_repr_length (c : Nat) (h1 : 1 ≤ c) (h2 : c ≤ 11) :
    (toString c).length = if c ≤ 9 then 1 else 2 := by
  interval_cases c <;> rfl

theorem Generate_of_NextRandom (p : Policy) (fuel : Nat) (sex : SexType) (year month day : Nat)
    (st st' : State) (r : Int) (hret : NextRandom p fuel year month day st = some (r, st')) :
    Generate p fuel sex year month day st =
      some (header p sex year month day ++ toString r ++
        toString (checksumOf p (header p sex year month day ++ toString r)), st') := by
  unfold Generate
  simp only [hret]

/-- With a non-negative `int` as random segment, the value appended by `Generate` is the
checksum of section 4.1 of the pre-checksum digits. -/
theorem Generate_spec_checksum (p : Policy) (fuel : Nat) (sex : SexType)
    (year month day : Nat) (st st' : State) (r : Int)
    (hy : year < UINT) (hm : month < UINT) (hd : day < UINT) (hr0 : 0 ≤ r) (hr1 : r < 2 ^ 31)
    (hret : NextRandom p fuel year month day st = some (r, st')) :
    Generate p fuel sex year month day st =
      some (header p sex year month day ++ toString r ++
        toString (specChecksum (ModuloValue p).toNat
          (digitsOfString (header p sex year month day ++ toString r))), st') := by
  obtain ⟨hdig, hlen⟩ := number_digits p sex year month day r hy hm hd hr0 hr1
  rw [Generate_of_NextRandom p fuel sex year month day st st' r hret, checksumOf_eq,
    accumulate_eq_weightedSum _ hdig hlen, moduloValue_eq]
  rfl

/-- A value returned by the retry loop is one of the draws of the random source. -/
theorem NextRandom_is_draw (p : Policy) (fuel : Nat) (year month day : Nat)
    (st st' : State) (r : Int) (hret : NextRandom p fuel year month day st = some (r, st')) :
    ∃ j, r = st.eng_ j := by
  obtain ⟨j, -, hr, -⟩ := nextRandomLoop_some _ fuel st r st' hret
  exact ⟨j, hr⟩

/-- The decimal rendering of an integer between `10 ^ k` and `10 ^ (k + 1) - 1` consists
of exactly `k + 1` decimal digits. -/
theorem intRepr_digits (r : Int) (k : Nat) (hlo : (10 : Int) ^ k ≤ r) (hhi : r < (10 : Int) ^ (k + 1)) :
    (∀ c ∈ (toString r).data, IsDigitChar c) ∧ (toString r).length = k + 1 := by
  have h0 : 0 ≤ r := le_trans (by positivity) hlo
  rw [intRepr_of_nonneg r h0]
  refine ⟨natRepr_isDigit _, natRepr_length_eq _ k ?_ ?_⟩
  · have : ((10 ^ k : Nat) : Int) ≤ ((r.toNat : Nat) : Int) := by
      rw [Int.toNat_of_nonneg h0]; exact_mod_cast hlo
    exact_mod_cast this
  · have : ((r.toNat : Nat) : Int) < ((10 ^ (k + 1) : Nat) : Int) := by
      rw [Int.toNat_of_nonneg h0]; exact_mod_cast hhi
    exact_mod_cast this

/-! ## Claims about Generate -/

/-- C2: from every state in which the random segment call returns `r`, `Generate` returns
the sex digit, the year, the month, the day, `r` and the checksum value, each in unpadded
decimal and in this order; the checksum value is the modulus minus the accumulated sum
of the preceding characters reduced by the modulus. -/
theorem Generate_concatenation (p : Policy) (fuel : Nat) (sex : SexType) (year month day : Nat)
    (st st' : State) (r : Int) (hret : NextRandom p fuel year month day st = some (r, st')) :
    Generate p fuel sex year month day st =
      some (toString (SexDigit p sex) ++ toString year ++ toString month ++ toString day ++
        toString r ++ toString (checksumOf p (toString (SexDigit p sex) ++ toString year ++
          toString month ++ toString day ++ toString r)), st') ∧
    checksumOf p (toString (SexDigit p sex) ++ toString year ++ toString month ++ toString day ++
        toString r) =
      (ModuloValue p).toNat - accumulate (toString (SexDigit p sex) ++ toString year ++
        toString month ++ toString day ++ toString r) % (ModuloValue p).toNat := by
  refine ⟨Generate_of_NextRandom p fuel sex year month day st st' r hret, ?_⟩
  rw [checksumOf_eq, moduloValue_eq]
  rfl

/-- An instance of the concatenation property with month 13 and day 32, from a fresh
Northeria generator whose first draw is 10031. -/
theorem Generate_concatenation_witness :
    NextRandom Policy.Northeria 1 2022 13 32 (State.fresh (drawsOf [10031] 0)) =
      some (10031, { cache_ := [(20221332, 10031)], eng_ := fun n => drawsOf [10031] 0 (n + 1) }) ∧
    (Generate Policy.Northeria 1 SexType.FEMALE 2022 13 32 (State.fresh (drawsOf [10031] 0)) =
      some (toString (SexDigit Policy.Northeria SexType.FEMALE) ++ toString 2022 ++ toString 13 ++
        toString 32 ++ toString (10031 : Int) ++
        toString (checksumOf Policy.Northeria (toString (SexDigit Policy.Northeria SexType.FEMALE) ++
          toString 2022 ++ toString 13 ++ toString 32 ++ toString (10031 : Int))),
        { cache_ := [(20221332, 10031)], eng_ := fun n => drawsOf [10031] 0 (n + 1) }) ∧
    checksumOf Policy.Northeria (toString (SexDigit Policy.Northeria SexType.FEMALE) ++
        toString 2022 ++ toString 13 ++ toString 32 ++ toString (10031 : Int)) =
      (ModuloValue Policy.Northeria).toNat - accumulate (toString (SexDigit Policy.Northeria
        SexType.FEMALE) ++ toString 2022 ++ toString 13 ++ toString 32 ++ toString (10031 : Int)) %
        (ModuloValue Policy.Northeria).toNat) :=
  ⟨rfl, Generate_concatenation Policy.Northeria 1 SexType.FEMALE 2022 13 32 _ _ 10031 rfl⟩

/-- C3: when the random segment is a non-negative `int`, the pre-checksum string of
`Generate` consists of decimal digits `d_1 ... d_n`, and the value appended is
`m - ((sum of (n - i + 1) * d_i) mod m)` with `m` the modulus of the policy. -/
theorem Generate_checksum_formula (p : Policy) (fuel : Nat) (sex : SexType)
    (year month day : Nat) (st st' : State) (r : Int)
    (hy : year < UINT) (hm : month < UINT) (hd : day < UINT) (hr0 : 0 ≤ r) (hr1 : r < 2 ^ 31)
    (hret : NextRandom p fuel year month day st = some (r, st')) :
    (∀ c ∈ (header p sex year month day ++ toString r).data, IsDigitChar c) ∧
    Generate p fuel sex year month day st =
      some (header p sex year month day ++ toString r ++
        toString (specChecksum (ModuloValue p).toNat
          (digitsOfString (header p sex year month day ++ toString r))), st') := by
  exact ⟨(number_digits p sex year month day r hy hm hd hr0 hr1).1,
    Generate_spec_checksum p fuel sex year month day st st' r hy hm hd hr0 hr1 hret⟩

/-- An instance of the checksum formula: a fresh Southeria generator drawing 1000 returns
"2202351710008" for (MALE, 2023, 5, 17), the checksum of "220235171000" being 8. -/
theorem Generate_checksum_formula_witness :
    Generate Policy.Southeria 1 SexType.MALE 2023 5 17 (State.fresh (drawsOf [1000] 0)) =
      some ("2202351710008",
        { cache_ := [(2023517, 1000)], eng_ := fun n => drawsOf [1000] 0 (n + 1) }) ∧
    specChecksum 11 (digitsOfString "220235171000") = 8 :=
  ⟨(Generate_checksum_formula Policy.Southeria 1 SexType.MALE 2023 5 17
      (State.fresh (drawsOf [1000] 0))
      { cache_ := [(2023517, 1000)], eng_ := fun n => drawsOf [1000] 0 (n + 1) } 1000
      (by decide) (by decide) (by decide) (by decide) (by decide) rfl).2, by decide⟩

/-- C4: for the identifier returned by `Generate` (random segment a non-negative `int`),
with `c` the checksum value that was appended and `k` the length of its rendering (1 when
`c` is 1..9, 2 when `c` is 10 or 11), recomputing the checksum of section 4.1 over the
identifier without its last `k` characters gives `c` again, and the rendering of `c` is
exactly the last `k` characters. -/
theorem Generate_checksum_roundtrip (p : Policy) (fuel : Nat) (sex : SexType)
    (year month day : Nat) (st st' : State) (r : Int)
    (hy : year < UINT) (hm : month < UINT) (hd : day < UINT) (hr0 : 0 ≤ r) (hr1 : r < 2 ^ 31)
    (hret : NextRandom p fuel year month day st = some (r, st')) :
    ∃ out c k, Generate p fuel sex year month day st = some (out, st') ∧
      out = header p sex year month day ++ toString r ++ toString c ∧
      1 ≤ c ∧ c ≤ 11 ∧ k = (if c ≤ 9 then 1 else 2) ∧
      specChecksum (ModuloValue p).toNat (digitsOfString (dropLast out k)) = c ∧
      takeLast out k = toString c := by
  obtain ⟨hdig, hlen⟩ := number_digits p sex year month day r hy hm hd hr0 hr1
  have hb := checksumOf_bounds p (header p sex year month day ++ toString r)
  have hk := checksum_repr_length _ hb.1 hb.2
  have hc : specChecksum (ModuloValue p).toNat
      (digitsOfString (header p sex year month day ++ toString r)) =
      checksumOf p (header p sex year month day ++ toString r) := by
    rw [checksumOf_eq, accumulate_eq_weightedSum _ hdig hlen, moduloValue_eq]
    rfl
  refine ⟨_, checksumOf p (header p sex year month day ++ toString r), _,
    Generate_of_NextRandom p fuel sex year month day st st' r hret, rfl, hb.1, hb.2, rfl, ?_, ?_⟩
  · rw [← hk, dropLast_append, hc]
  · rw [← hk, takeLast_append]

/-- An instance of the checksum round trip, from a fresh Northeria generator whose first
draw is 10031. -/
theorem Generate_checksum_roundtrip_witness :
    ∃ out c k, Generate Policy.Northeria 1 SexType.FEMALE 2022 12 25
        (State.fresh (drawsOf [10031] 0)) =
        some (out, { cache_ := [(20221225, 10031)], eng_ := fun n => drawsOf [10031] 0 (n + 1) }) ∧
      out = header Policy.Northeria SexType.FEMALE 2022 12 25 ++ toString (10031 : Int) ++
        toString c ∧
      1 ≤ c ∧ c ≤ 11 ∧ k = (if c ≤ 9 then 1 else 2) ∧
      specChecksum (ModuloValue Policy.Northeria).toNat (digitsOfString (dropLast out k)) = c ∧
      takeLast out k = toString c :=
  Generate_checksum_roundtrip Policy.Northeria 1 SexType.FEMALE 2022 12 25
    (State.fresh (drawsOf [10031] 0))
    { cache_ := [(20221225, 10031)], eng_ := fun n => drawsOf [10031] 0 (n + 1) } 10031
    (by decide) (by decide) (by decide) (by decide) (by decide) rfl

/-- C8: whenever the random segment call returns, `Generate` returns a string whose first
character is the decimal digit of `SexDigit(sex)` of the policy. -/
theorem Generate_first_character (p : Policy) (fuel : Nat) (sex : SexType)
    (year month day : Nat) (st st' : State) (r : Int)
    (hret : NextRandom p fuel year month day st = some (r, st')) :
    ∃ out, Generate p fuel sex year month day st = some (out, st') ∧
      out.data.head? = some (Nat.digitChar (SexDigit p sex).toNat) ∧
      toString (SexDigit p sex) = String.singleton (Nat.digitChar (SexDigit p sex).toNat) := by
  refine ⟨_, Generate_of_NextRandom p fuel sex year month day st st' r hret, ?_, ?_⟩
  · rw [String.data_append, String.data_append, header_data, sexDigit_repr]
    rfl
  · cases p <;> cases sex <;> rfl

/-- An instance of the first-character property, from a fresh Southeria generator whose
first draw is 4321. -/
theorem Generate_first_character_witness :
    ∃ out, Generate Policy.Southeria 1 SexType.FEMALE 1999 2 30 (State.fresh (drawsOf [4321] 0)) =
        some (out, { cache_ := [(1999230, 4321)], eng_ := fun n => drawsOf [4321] 0 (n + 1) }) ∧
      out.data.head? = some (Nat.digitChar (SexDigit Policy.Southeria SexType.FEMALE).toNat) ∧
      toString (SexDigit Policy.Southeria SexType.FEMALE) =
        String.singleton (Nat.digitChar (SexDigit Policy.Southeria SexType.FEMALE).toNat) :=
  Generate_first_character Policy.Southeria 1 SexType.FEMALE 1999 2 30
    (State.fresh (drawsOf [4321] 0))
    { cache_ := [(1999230, 4321)], eng_ := fun n => drawsOf [4321] 0 (n + 1) } 4321 rfl

/-! ## Claims about the factory, the policies and the retry loop -/

theorem cString_of_no_nul (name : String) (h : Char.ofNat 0 ∉ name.data) : cString name = name := by
  unfold cString
  have : name.data.takeWhile (fun c => decide (c ≠ Char.ofNat 0)) = name.data := by
    rw [List.takeWhile_eq_self_iff]
    intro c hc
    simp only [ne_eq, decide_not, Bool.not_eq_eq_eq_not, Bool.not_true, decide_eq_false_iff_not]
    rintro rfl
    exact h hc
  rw [this]

/-- When the character array at `country.data()` holds no NUL before its closing one, the
lookup is exact on the characters of the array: it yields the Northeria generator when
they are "northeria", the Southeria generator when they are "southeria", and the error
otherwise.  For a string literal or a `std::string` argument the array holds the
characters of the name; for a view of the first characters of a longer string it holds
the longer string, so that such a view of "northeria" is not found. -/
theorem GetGenerator_of_no_nul (name : String) (h : Char.ofNat 0 ∉ name.data) :
    (GetGenerator name = Except.ok Policy.Northeria ↔ name = "northeria") ∧
    (GetGenerator name = Except.ok Policy.Southeria ↔ name = "southeria") ∧
    (GetGenerator name = Except.error LookupError.invalidCountry ↔
      name ≠ "northeria" ∧ name ≠ "southeria") := by
  unfold GetGenerator
  rw [cString_of_no_nul name h]
  by_cases h1 : name = "northeria"
  · subst h1; decide
  · by_cases h2 : name = "southeria"
    · subst h2; decide
    · have e1 : (name == "northeria") = false := by simpa using h1
      have e2 : (name == "southeria") = false := by simpa using h2
      simp [generators_, List.lookup, e1, e2, h1, h2]

/-- C1: a name with an embedded NUL character that is not "northeria" is resolved to the
Northeria generator, because `country.data()` is read as a C string. -/
theorem GetGenerator_embedded_nul :
    GetGenerator "northeria\x00x" = Except.ok Policy.Northeria ∧
      "northeria\x00x" ≠ "northeria" ∧ ("northeria\x00x").length = 11 := by
  decide

/-- C5: two back-to-back `NextRandom` calls with the same date return the same value when
the random source draws that value twice, for either policy. -/
theorem NextRandom_repeats_value :
    (∃ st1 st2, NextRandom Policy.Northeria 1 2022 12 25 (State.fresh (drawsOf [10000, 10000] 0)) =
        some (10000, st1) ∧
      NextRandom Policy.Northeria 1 2022 12 25 st1 = some (10000, st2)) ∧
    (∃ st1 st2, NextRandom Policy.Southeria 1 2023 5 17 (State.fresh (drawsOf [1000, 1000] 0)) =
        some (1000, st1) ∧
      NextRandom Policy.Southeria 1 2023 5 17 st1 = some (1000, st2)) :=
  ⟨⟨_, _, rfl, rfl⟩, ⟨_, _, rfl, rfl⟩⟩

/-- C6: `NextRandom` returns a value that is stored in the mapping at the moment of the
call: the cache maps the key 2023517 to 1000, and the call for another date returns 1000
on its first draw. -/
theorem NextRandom_returns_stored_value :
    Cache.find [(2023517, 1000)] 2023517 = some 1000 ∧
    ∃ st', NextRandom Policy.Southeria 1 2023 6 1
        { cache_ := [(2023517, 1000)], eng_ := drawsOf [1000] 0 } = some (1000, st') :=
  ⟨rfl, _, rfl⟩

/-- C7: with a random source that stays in the range the policy was constructed with,
every value returned by `NextRandom` lies in that range, [1000, 9999] for Southeria and
[10000, 99999] for Northeria, and its decimal rendering has exactly 4, respectively 5,
digits. -/
theorem NextRandom_in_range (p : Policy) (fuel : Nat) (year month day : Nat)
    (st st' : State) (r : Int)
    (hrange : ∀ n, (range p).1 ≤ st.eng_ n ∧ st.eng_ n ≤ (range p).2)
    (hret : NextRandom p fuel year month day st = some (r, st')) :
    (∀ c ∈ (toString r).data, IsDigitChar c) ∧
    (p = Policy.Southeria → 1000 ≤ r ∧ r ≤ 9999 ∧ (toString r).length = 4) ∧
    (p = Policy.Northeria → 10000 ≤ r ∧ r ≤ 99999 ∧ (toString r).length = 5) := by
  obtain ⟨j, hr⟩ := NextRandom_is_draw p fuel year month day st st' r hret
  have hj := hrange j
  rw [← hr] at hj
  refine ⟨?_, ?_, ?_⟩
  · cases p
    · exact (intRepr_digits r 3 (by simpa [range] using hj.1) (by simp only [range] at hj; omega)).1
    · exact (intRepr_digits r 4 (by simpa [range] using hj.1) (by simp only [range] at hj; omega)).1
  · rintro rfl
    simp only [range] at hj
    exact ⟨hj.1, hj.2, (intRepr_digits r 3 (by simpa using hj.1) (by omega)).2⟩
  · rintro rfl
    simp only [range] at hj
    exact ⟨hj.1, hj.2, (intRepr_digits r 4 (by simpa using hj.1) (by omega)).2⟩

/-- An instance of the range property: a fresh Southeria generator that always draws
4321. -/
theorem NextRandom_in_range_witness :
    (∀ c ∈ (toString (4321 : Int)).data, IsDigitChar c) ∧
    (Policy.Southeria = Policy.Southeria →
      1000 ≤ (4321 : Int) ∧ (4321 : Int) ≤ 9999 ∧ (toString (4321 : Int)).length = 4) ∧
    (Policy.Southeria = Policy.Northeria →
      10000 ≤ (4321 : Int) ∧ (4321 : Int) ≤ 99999 ∧ (toString (4321 : Int)).length = 5) :=
  NextRandom_in_range Policy.Southeria 1 2023 5 17
    { cache_ := [], eng_ := fun _ => 4321 }
    { cache_ := [(2023517, 4321)], eng_ := fun _ => 4321 } 4321
    (by intro n; show (1000 : Int) ≤ 4321 ∧ (4321 : Int) ≤ 9999; decide) rfl

/-- C9: the values of `SexDigit` and `ModuloValue`: Northeria maps FEMALE to 9 and MALE to
7, Southeria maps FEMALE to 1 and MALE to 2, and the modulus is 11 for both. -/
theorem SexDigit_ModuloValue_values :
    SexDigit Policy.Northeria SexType.FEMALE = 9 ∧ SexDigit Policy.Northeria SexType.MALE = 7 ∧
    SexDigit Policy.Southeria SexType.FEMALE = 1 ∧ SexDigit Policy.Southeria SexType.MALE = 2 ∧
    ModuloValue Policy.Northeria = 11 ∧ ModuloValue Policy.Southeria = 11 := by
  decide

/-! ## The Northeria scenario -/

theorem toUnsigned_of_nonneg (r : Int) (h0 : 0 ≤ r) (h1 : r < (UINT : Int)) :
    toUnsigned r = r.toNat := by
  unfold toUnsigned
  rw [Int.emod_eq_of_lt h0 h1]

theorem find_range_map (v : Int) : ∀ (n a k : Nat), a ≤ k → k < a + n →
    Cache.find ((List.range' a n).map (fun i => (i, v))) k = some v := by
  intro n
  induction n with
  | zero => intro a k h1 h2; omega
  | succ n ih =>
    intro a k h1 h2
    rw [List.range'_succ, List.map_cons, Cache.find]
    by_cases hak : a = k
    · rw [if_pos hak]
    · rw [if_neg hak]
      exact ih (a + 1) k (by omega) (by omega)

/-- From the exhausted cache the Northeria retry loop never returns, whatever values of
its range the random source draws. -/
theorem nextRandomLoop_exhausted (key fuel : Nat) (draws : Nat → Int)
    (hrange : ∀ n, 10000 ≤ draws n ∧ draws n ≤ 99999) :
    nextRandomLoop key fuel { cache_ := exhaustedCache, eng_ := draws } = none := by
  apply nextRandomLoop_none
  intro n
  have h := hrange n
  have hU : (UINT : Int) = 4294967296 := by decide
  show Cache.find exhaustedCache (toUnsigned (draws n)) ≠ none
  rw [toUnsigned_of_nonneg _ (by omega) (by omega), exhaustedCache,
    find_range_map 99999 90000 10000 _ (by omega) (by omega)]
  simp

/-- C10, as stated, fails: in a state of the Northeria generator whose draws are all in
range (the exhausted cache with the cycling source), `Generate(FEMALE, 2022, 12, 25)`
returns nothing, whatever the iteration budget. -/
theorem Generate_northeria_exhausted :
    (∀ n, 10000 ≤ cyclingDraws n ∧ cyclingDraws n ≤ 99999) ∧
    ¬ ∃ fuel, (Generate Policy.Northeria fuel SexType.FEMALE 2022 12 25
      { cache_ := exhaustedCache, eng_ := cyclingDraws }).isSome = true := by
  have hr : ∀ n, 10000 ≤ cyclingDraws n ∧ cyclingDraws n ≤ 99999 := by
    intro n
    have : n % 90000 < 90000 := Nat.mod_lt _ (by decide)
    unfold cyclingDraws
    omega
  refine ⟨hr, ?_⟩
  rintro ⟨fuel, h⟩
  unfold Generate NextRandom at h
  rw [nextRandomLoop_exhausted _ fuel cyclingDraws hr] at h
  simp at h

/-- C10, amended: the lookup of "northeria" yields the Northeria generator, and from every
state of it with draws in range in which the random segment call returns `r`,
`Generate(FEMALE, 2022, 12, 25)` returns "920221225", then the five decimal digits of `r`
with `10000 ≤ r ≤ 99999`, then the decimal rendering of `11 - (S mod 11)`, where `S` is
the weighted sum of those 14 digits with weights 14 down to 1. -/
theorem Generate_northeria_scenario (fuel : Nat) (st st' : State) (r : Int)
    (hrange : ∀ n, 10000 ≤ st.eng_ n ∧ st.eng_ n ≤ 99999)
    (hret : NextRandom Policy.Northeria fuel 2022 12 25 st = some (r, st')) :
    GetGenerator "northeria" = Except.ok Policy.Northeria ∧
    10000 ≤ r ∧ r ≤ 99999 ∧ (toString r).length = 5 ∧
    (∀ c ∈ (toString r).data, IsDigitChar c) ∧
    (digitsOfString ("920221225" ++ toString r)).length = 14 ∧
    Generate Policy.Northeria fuel SexType.FEMALE 2022 12 25 st =
      some ("920221225" ++ toString r ++
        toString (11 - weightedSum (digitsOfString ("920221225" ++ toString r)) % 11), st') := by
  obtain ⟨j, hr⟩ := NextRandom_is_draw Policy.Northeria fuel 2022 12 25 st st' r hret
  obtain ⟨h1, h2⟩ := hrange j
  rw [← hr] at h1 h2
  obtain ⟨hdig, h3⟩ := intRepr_digits r 4 (by simpa using h1) (by omega)
  have hgen := Generate_spec_checksum Policy.Northeria fuel SexType.FEMALE 2022 12 25 st st' r
    (by decide) (by decide) (by decide) (by omega) (by omega) hret
  refine ⟨by decide, h1, h2, h3, hdig, ?_, hgen⟩
  simp only [digitsOfString, List.length_map, String.data_append, List.length_append]
  have h3d : (toString r).data.length = 5 := h3
  rw [h3d]
  rfl

/-- An instance of the Northeria scenario: a fresh generator that always draws 10031. -/
theorem Generate_northeria_scenario_witness :
    GetGenerator "northeria" = Except.ok Policy.Northeria ∧
    10000 ≤ (10031 : Int) ∧ (10031 : Int) ≤ 99999 ∧ (toString (10031 : Int)).length = 5 ∧
    (∀ c ∈ (toString (10031 : Int)).data, IsDigitChar c) ∧
    (digitsOfString ("920221225" ++ toString (10031 : Int))).length = 14 ∧
    Generate Policy.Northeria 1 SexType.FEMALE 2022 12 25
        { cache_ := [], eng_ := fun _ => 10031 } =
      some ("920221225" ++ toString (10031 : Int) ++
        toString (11 - weightedSum (digitsOfString ("920221225" ++ toString (10031 : Int))) % 11),
        { cache_ := [(20221225, 10031)], eng_ := fun _ => 10031 }) :=
  Generate_northeria_scenario 1 { cache_ := [], eng_ := fun _ => 10031 }
    { cache_ := [(20221225, 10031)], eng_ := fun _ => 10031 } 10031
    (by intro n; show (10000 : Int) ≤ 10031 ∧ (10031 : Int) ≤ 99999; decide) rfl

/-! ## The Southeria scenario -/

/-- From the exhausted Southeria cache the retry loop never returns, whatever values of
its range the random source draws. -/
theorem nextRandomLoop_exhaustedSoutheria (key fuel : Nat) (draws : Nat → Int)
    (hrange : ∀ n, 1000 ≤ draws n ∧ draws n ≤ 9999) :
    nextRandomLoop key fuel { cache_ := exhaustedCacheSoutheria, eng_ := draws } = none := by
  apply nextRandomLoop_none
  intro n
  have h := hrange n
  have hU : (UINT : Int) = 4294967296 := by decide
  show Cache.find exhaustedCacheSoutheria (toUnsigned (draws n)) ≠ none
  rw [toUnsigned_of_nonneg _ (by omega) (by omega), exhaustedCacheSoutheria,
    find_range_map 9999 9000 1000 _ (by omega) (by omega)]
  simp

/-- C11, as stated, fails: in a state of the Southeria generator whose draws are all in
range (the exhausted cache with the cycling source), `Generate(MALE, 2023, 5, 17)` returns
nothing, whatever the iteration budget. -/
theorem Generate_southeria_exhausted :
    (∀ n, 1000 ≤ cyclingDrawsSoutheria n ∧ cyclingDrawsSoutheria n ≤ 9999) ∧
    ¬ ∃ fuel, (Generate Policy.Southeria fuel SexType.MALE 2023 5 17
      { cache_ := exhaustedCacheSoutheria, eng_ := cyclingDrawsSoutheria }).isSome = true := by
  have hr : ∀ n, 1000 ≤ cyclingDrawsSoutheria n ∧ cyclingDrawsSoutheria n ≤ 9999 := by
    intro n
    have : n % 9000 < 9000 := Nat.mod_lt _ (by decide)
    unfold cyclingDrawsSoutheria
    omega
  refine ⟨hr, ?_⟩
  rintro ⟨fuel, h⟩
  unfold Generate NextRandom at h
  rw [nextRandomLoop_exhaustedSoutheria _ fuel cyclingDrawsSoutheria hr] at h
  simp at h

/-- C11, amended: the lookup of "southeria" yields the Southeria generator, and from every
state of it with draws in range in which the random segment call returns `r`,
`Generate(MALE, 2023, 5, 17)` returns "22023517", then the four decimal digits of `r` with
`1000 ≤ r ≤ 9999`, then the decimal rendering of `11 - (S mod 11)`, where `S` is the
weighted sum of those 12 digits with weights 12 down to 1. -/
theorem Generate_southeria_scenario (fuel : Nat) (st st' : State) (r : Int)
    (hrange : ∀ n, 1000 ≤ st.eng_ n ∧ st.eng_ n ≤ 9999)
    (hret : NextRandom Policy.Southeria fuel 2023 5 17 st = some (r, st')) :
    GetGenerator "southeria" = Except.ok Policy.Southeria ∧
    1000 ≤ r ∧ r ≤ 9999 ∧ (toString r).length = 4 ∧
    (∀ c ∈ (toString r).data, IsDigitChar c) ∧
    (digitsOfString ("22023517" ++ toString r)).length = 12 ∧
    Generate Policy.Southeria fuel SexType.MALE 2023 5 17 st =
      some ("22023517" ++ toString r ++
        toString (11 - weightedSum (digitsOfString ("22023517" ++ toString r)) % 11), st') := by
  obtain ⟨j, hr⟩ := NextRandom_is_draw Policy.Southeria fuel 2023 5 17 st st' r hret
  obtain ⟨h1, h2⟩ := hrange j
  rw [← hr] at h1 h2
  obtain ⟨hdig, h3⟩ := intRepr_digits r 3 (by simpa using h1) (by omega)
  have hgen := Generate_spec_checksum Policy.Southeria fuel SexType.MALE 2023 5 17 st st' r
    (by decide) (by decide) (by decide) (by omega) (by omega) hret
  refine ⟨by decide, h1, h2, h3, hdig, ?_, hgen⟩
  simp only [digitsOfString, List.length_map, String.data_append, List.length_append]
  have h3d : (toString r).data.length = 4 := h3
  rw [h3d]
  rfl

/-- An instance of the Southeria scenario: a fresh generator that always draws 1000
returns "2202351710008". -/
theorem Generate_southeria_scenario_witness :
    GetGenerator "southeria" = Except.ok Policy.Southeria ∧
    1000 ≤ (1000 : Int) ∧ (1000 : Int) ≤ 9999 ∧ (toString (1000 : Int)).length = 4 ∧
    (∀ c ∈ (toString (1000 : Int)).data, IsDigitChar c) ∧
    (digitsOfString ("22023517" ++ toString (1000 : Int))).length = 12 ∧
    Generate Policy.Southeria 1 SexType.MALE 2023 5 17
        { cache_ := [], eng_ := fun _ => 1000 } =
      some ("22023517" ++ toString (1000 : Int) ++
        toString (11 - weightedSum (digitsOfString ("22023517" ++ toString (1000 : Int))) % 11),
        { cache_ := [(2023517, 1000)], eng_ := fun _ => 1000 }) :=
  Generate_southeria_scenario 1 { cache_ := [], eng_ := fun _ => 1000 }
    { cache_ := [(2023517, 1000)], eng_ := fun _ => 1000 } 1000
    (by intro n; show (1000 : Int) ≤ 1000 ∧ (1000 : Int) ≤ 9999; decide) rfl

/-! ## Format and checksum of the identifier -/

/-- The value streamed last by `Generate` is the modulus minus the remainder, and the
remainder does not exceed the modulus. -/
theorem checksumOf_no_wrap (p : Policy) (number : String) :
    accumulate number % toUnsigned (ModuloValue p) < toUnsigned (ModuloValue p) ∧
    checksumOf p number =
      toUnsigned (ModuloValue p) - accumulate number % toUnsigned (ModuloValue p) := by
  rw [checksumOf_eq, toUnsigned_moduloValue]
  exact ⟨Nat.mod_lt _ (by decide), rfl⟩

/-- C12: with draws in the range of the policy, whenever the random segment call returns,
`Generate` returns a string all of whose characters, those of the checksum segment
included, are decimal digits. -/
theorem Generate_all_digits (p : Policy) (fuel : Nat) (sex : SexType) (year month day : Nat)
    (st st' : State) (r : Int)
    (hrange : ∀ n, (range p).1 ≤ st.eng_ n ∧ st.eng_ n ≤ (range p).2)
    (hret : NextRandom p fuel year month day st = some (r, st')) :
    ∃ out, Generate p fuel sex year month day st = some (out, st') ∧
      ∀ c ∈ out.data, IsDigitChar c := by
  obtain ⟨j, hr⟩ := NextRandom_is_draw p fuel year month day st st' r hret
  have hj := hrange j
  rw [← hr] at hj
  have h0 : 0 ≤ r := by cases p <;> simp only [range] at hj <;> omega
  refine ⟨_, Generate_of_NextRandom p fuel sex year month day st st' r hret, ?_⟩
  intro c hc
  rw [String.data_append, String.data_append, List.mem_append, List.mem_append] at hc
  rcases hc with (hc | hc) | hc
  · exact header_isDigit p sex year month day c hc
  · rw [intRepr_of_nonneg r h0] at hc
    exact natRepr_isDigit _ c hc
  · exact natRepr_isDigit _ c hc

/-- An instance of the digit property with month 13 and day 32: a fresh Northeria
generator that always draws 10031. -/
theorem Generate_all_digits_witness :
    ∃ out, Generate Policy.Northeria 1 SexType.MALE 2022 13 32
        { cache_ := [], eng_ := fun _ => 10031 } =
        some (out, { cache_ := [(20221332, 10031)], eng_ := fun _ => 10031 }) ∧
      ∀ c ∈ out.data, IsDigitChar c :=
  Generate_all_digits Policy.Northeria 1 SexType.MALE 2022 13 32
    { cache_ := [], eng_ := fun _ => 10031 }
    { cache_ := [(20221332, 10031)], eng_ := fun _ => 10031 } 10031
    (by intro n; show (10000 : Int) ≤ 10031 ∧ (10031 : Int) ≤ 99999; decide) rfl

/-- C13: when the weighted sum of the pre-checksum digits is a multiple of the modulus,
`rest` is 0, the value appended is the modulus 11 itself and the identifier ends in the
two characters "11".  The case occurs, and so does the two-character checksum "10": for
Northeria, FEMALE, 2022, 12, 25 the draw 10031 gives "9202212251003111" (weighted sum 275)
and the draw 10032 gives "9202212251003210" (weighted sum 276). -/
theorem Generate_checksum_eleven :
    (∀ (p : Policy) (fuel : Nat) (sex : SexType) (year month day : Nat) (st st' : State)
        (r : Int), year < UINT → month < UINT → day < UINT → 0 ≤ r → r < 2 ^ 31 →
        NextRandom p fuel year month day st = some (r, st') →
        weightedSum (digitsOfString (header p sex year month day ++ toString r)) %
          (ModuloValue p).toNat = 0 →
        accumulate (header p sex year month day ++ toString r) % toUnsigned (ModuloValue p) = 0 ∧
        checksumOf p (header p sex year month day ++ toString r) = 11 ∧
        Generate p fuel sex year month day st =
          some (header p sex year month day ++ toString r ++ "11", st')) ∧
    (weightedSum (digitsOfString "92022122510031") = 275 ∧
      (Generate Policy.Northeria 1 SexType.FEMALE 2022 12 25
        (State.fresh (drawsOf [10031] 0))).map Prod.fst = some "9202212251003111") ∧
    (weightedSum (digitsOfString "92022122510032") = 276 ∧
      (Generate Policy.Northeria 1 SexType.FEMALE 2022 12 25
        (State.fresh (drawsOf [10032] 0))).map Prod.fst = some "9202212251003210") := by
  refine ⟨?_, ⟨by decide, by decide⟩, ⟨by decide, by decide⟩⟩
  intro p fuel sex year month day st st' r hy hm hd hr0 hr1 hret hsum
  obtain ⟨hdig, hlen⟩ := number_digits p sex year month day r hy hm hd hr0 hr1
  have hacc := accumulate_eq_weightedSum _ hdig hlen
  rw [moduloValue_eq] at hsum
  have hsum11 : weightedSum (digitsOfString (header p sex year month day ++ toString r)) % 11 = 0 :=
    hsum
  have hc : checksumOf p (header p sex year month day ++ toString r) = 11 := by
    rw [checksumOf_eq, hacc, hsum11]
  refine ⟨?_, hc, ?_⟩
  · rw [toUnsigned_moduloValue, hacc, hsum11]
  · rw [Generate_of_NextRandom p fuel sex year month day st st' r hret, hc]
    rfl

/-- An instance of the checksum 11: a fresh Northeria generator drawing 10031 for
(FEMALE, 2022, 12, 25). -/
theorem Generate_checksum_eleven_witness :
    Generate Policy.Northeria 1 SexType.FEMALE 2022 12 25 (State.fresh (drawsOf [10031] 0)) =
      some ("9202212251003111",
        { cache_ := [(20221225, 10031)], eng_ := fun n => drawsOf [10031] 0 (n + 1) }) :=
  (Generate_checksum_eleven.1 Policy.Northeria 1 SexType.FEMALE 2022 12 25
    (State.fresh (drawsOf [10031] 0))
    { cache_ := [(20221225, 10031)], eng_ := fun n => drawsOf [10031] 0 (n + 1) } 10031
    (by decide) (by decide) (by decide) (by decide) (by decide) rfl (by decide)).2.2

/-- C15: for the identifier returned by `Generate` (random segment a non-negative `int`),
with `S` the weighted sum of the pre-checksum digits and `c` the checksum value appended,
`S + c` is a multiple of 11 and `1 ≤ c ≤ 11`; `rest` is below the modulus, so the
`unsigned` subtraction `ModuloValue() - rest` does not wrap. -/
theorem Generate_checksum_divisible (p : Policy) (fuel : Nat) (sex : SexType)
    (year month day : Nat) (st st' : State) (r : Int)
    (hy : year < UINT) (hm : month < UINT) (hd : day < UINT) (hr0 : 0 ≤ r) (hr1 : r < 2 ^ 31)
    (hret : NextRandom p fuel year month day st = some (r, st')) :
    ∃ c, Generate p fuel sex year month day st =
        some (header p sex year month day ++ toString r ++ toString c, st') ∧
      1 ≤ c ∧ c ≤ 11 ∧
      11 ∣ weightedSum (digitsOfString (header p sex year month day ++ toString r)) + c ∧
      accumulate (header p sex year month day ++ toString r) % toUnsigned (ModuloValue p) <
        toUnsigned (ModuloValue p) ∧
      c = toUnsigned (ModuloValue p) -
        accumulate (header p sex year month day ++ toString r) % toUnsigned (ModuloValue p) := by
  obtain ⟨hdig, hlen⟩ := number_digits p sex year month day r hy hm hd hr0 hr1
  have hacc := accumulate_eq_weightedSum _ hdig hlen
  have hb := checksumOf_bounds p (header p sex year month day ++ toString r)
  have hnw := checksumOf_no_wrap p (header p sex year month day ++ toString r)
  refine ⟨checksumOf p (header p sex year month day ++ toString r),
    Generate_of_NextRandom p fuel sex year month day st st' r hret, hb.1, hb.2, ?_, hnw.1, hnw.2⟩
  rw [checksumOf_eq, hacc]
  omega

/-- An instance of the divisibility property: a fresh Southeria generator drawing 1000
for (MALE, 2023, 5, 17). -/
theorem Generate_checksum_divisible_witness :
    ∃ c, Generate Policy.Southeria 1 SexType.MALE 2023 5 17 (State.fresh (drawsOf [1000] 0)) =
        some (header Policy.Southeria SexType.MALE 2023 5 17 ++ toString (1000 : Int) ++
          toString c, { cache_ := [(2023517, 1000)], eng_ := fun n => drawsOf [1000] 0 (n + 1) }) ∧
      1 ≤ c ∧ c ≤ 11 ∧
      11 ∣ weightedSum (digitsOfString (header Policy.Southeria SexType.MALE 2023 5 17 ++
        toString (1000 : Int))) + c ∧
      accumulate (header Policy.Southeria SexType.MALE 2023 5 17 ++ toString (1000 : Int)) %
          toUnsigned (ModuloValue Policy.Southeria) < toUnsigned (ModuloValue Policy.Southeria) ∧
      c = toUnsigned (ModuloValue Policy.Southeria) -
        accumulate (header Policy.Southeria SexType.MALE 2023 5 17 ++ toString (1000 : Int)) %
          toUnsigned (ModuloValue Policy.Southeria) :=
  Generate_checksum_divisible Policy.Southeria 1 SexType.MALE 2023 5 17
    (State.fresh (drawsOf [1000] 0))
    { cache_ := [(2023517, 1000)], eng_ := fun n => drawsOf [1000] 0 (n + 1) } 1000
    (by decide) (by decide) (by decide) (by decide) (by decide) rfl

/-! ## The cache -/

theorem find_assign_self (c : Cache) (k : Nat) (v : Int) : (c.assign k v).find k = some v := by
  induction c with
  | nil => simp [Cache.assign, Cache.find]
  | cons e rest ih =>
    obtain ⟨k', v'⟩ := e
    by_cases h : k' = k
    · simp [Cache.assign, Cache.find, h]
    · simp [Cache.assign, Cache.find, h, ih]

theorem find_assign_other (c : Cache) (k k' : Nat) (v : Int) (h : k' ≠ k) :
    (c.assign k v).find k' = c.find k' := by
  induction c with
  | nil => simp [Cache.assign, Cache.find, Ne.symm h]
  | cons e rest ih =>
    obtain ⟨k0, v0⟩ := e
    by_cases h0 : k0 = k
    · subst h0
      simp [Cache.assign, Cache.find, Ne.symm h]
    · by_cases h1 : k0 = k'
      · subst h1
        simp [Cache.assign, Cache.find, h0]
      · simp [Cache.assign, Cache.find, h0, h1, ih]

theorem assign_eq_self (c : Cache) (k : Nat) (v : Int) (h : c.find k = some v) :
    c.assign k v = c := by
  induction c with
  | nil => simp [Cache.find] at h
  | cons e rest ih =>
    obtain ⟨k0, v0⟩ := e
    by_cases h0 : k0 = k
    · subst h0
      simp only [Cache.find, if_true, Option.some.injEq] at h
      simp [Cache.assign, h]
    · simp only [Cache.find, if_neg h0] at h
      simp [Cache.assign, h0, ih h]

theorem mem_assign (c : Cache) (k : Nat) (v : Int) (e : Nat × Int) (h : e ∈ c.assign k v) :
    e ∈ c ∨ e = (k, v) := by
  induction c with
  | nil => simpa [Cache.assign] using h
  | cons e0 rest ih =>
    obtain ⟨k0, v0⟩ := e0
    by_cases h0 : k0 = k
    · simp only [Cache.assign, if_pos h0, List.mem_cons] at h
      rcases h with h | h
      · exact Or.inr h
      · exact Or.inl (List.mem_cons_of_mem _ h)
    · simp only [Cache.assign, if_neg h0, List.mem_cons] at h
      rcases h with h | h
      · exact Or.inl (h ▸ List.mem_cons_self _ _)
      · rcases ih h with h | h
        · exact Or.inl (List.mem_cons_of_mem _ h)
        · exact Or.inr h

theorem find_none_of_keys_ne (c : Cache) (x : Nat) (h : ∀ e ∈ c, e.1 ≠ x) : c.find x = none := by
  induction c with
  | nil => rfl
  | cons e rest ih =>
    obtain ⟨k0, v0⟩ := e
    have h0 : k0 ≠ x := h (k0, v0) (List.mem_cons_self _ _)
    simp only [Cache.find, if_neg h0]
    exact ih (fun e he => h e (List.mem_cons_of_mem _ he))

/-- The `unsigned` date key is the plain value of the expression reduced modulo `2 ^ 32`. -/
theorem dateKey_eq (year month day : Nat) :
    dateKey Policy.Northeria year month day = (year * 10000 + month * 100 + day) % UINT ∧
    dateKey Policy.Southeria year month day = (year * 1000 + month * 100 + day) % UINT := by
  have hU : UINT = 4294967296 := by decide
  simp only [dateKey, hU]
  constructor <;> omega

/-- The cache effect of a returning call: when `NextRandom` returns `r`, it has executed
`cache_[key] = r` for the date key of the call (the `unsigned` value of
`year*10000 + month*100 + day` for Northeria, of `year*1000 + month*100 + day` for
Southeria): the cache afterwards maps that key to `r`,
whatever it held under it before, the entry of every other key is unchanged, and the
stored content differs from the one before unless the key already held `r`. -/
theorem NextRandom_cache_effect (p : Policy) (fuel : Nat) (year month day : Nat)
    (st st' : State) (r : Int) (hret : NextRandom p fuel year month day st = some (r, st')) :
    (dateKey Policy.Northeria year month day = (year * 10000 + month * 100 + day) % UINT ∧
      dateKey Policy.Southeria year month day = (year * 1000 + month * 100 + day) % UINT) ∧
    st'.cache_ = st.cache_.assign (dateKey p year month day) r ∧
    st'.cache_.find (dateKey p year month day) = some r ∧
    (∀ k, k ≠ dateKey p year month day → st'.cache_.find k = st.cache_.find k) ∧
    (st'.cache_ = st.cache_ ↔ st.cache_.find (dateKey p year month day) = some r) := by
  obtain ⟨j, -, -, -, -, hst⟩ := nextRandomLoop_some _ fuel st r st' hret
  have hc : st'.cache_ = st.cache_.assign (dateKey p year month day) r := by rw [hst]
  refine ⟨dateKey_eq year month day, hc, ?_, ?_, ?_⟩
  · rw [hc, find_assign_self]
  · intro k hk
    rw [hc, find_assign_other _ _ _ _ hk]
  · rw [hc]
    constructor
    · intro h
      rw [← h, find_assign_self]
    · exact assign_eq_self _ _ _

/-- An instance of the cache effect: the Southeria cache holds 2024105 ↦ 1000 and
2023517 ↦ 1001; the call for (2024, 1, 5) that draws 1002 replaces the first entry and
leaves the second. -/
theorem NextRandom_cache_effect_witness :
    (dateKey Policy.Northeria 2024 1 5 = (2024 * 10000 + 1 * 100 + 5) % UINT ∧
      dateKey Policy.Southeria 2024 1 5 = (2024 * 1000 + 1 * 100 + 5) % UINT) ∧
    [(2024105, (1002 : Int)), (2023517, 1001)] =
      Cache.assign [(2024105, 1000), (2023517, 1001)] (dateKey Policy.Southeria 2024 1 5) 1002 ∧
    Cache.find [(2024105, (1002 : Int)), (2023517, 1001)] (dateKey Policy.Southeria 2024 1 5) =
      some 1002 ∧
    (∀ k, k ≠ dateKey Policy.Southeria 2024 1 5 →
      Cache.find [(2024105, (1002 : Int)), (2023517, 1001)] k =
        Cache.find [(2024105, 1000), (2023517, 1001)] k) ∧
    ([(2024105, (1002 : Int)), (2023517, 1001)] = [(2024105, 1000), (2023517, 1001)] ↔
      Cache.find [(2024105, 1000), (2023517, 1001)] (dateKey Policy.Southeria 2024 1 5) =
        some 1002) :=
  NextRandom_cache_effect Policy.Southeria 1 2024 1 5
    { cache_ := [(2024105, 1000), (2023517, 1001)], eng_ := fun _ => 1002 }
    { cache_ := [(2024105, 1002), (2023517, 1001)], eng_ := fun _ => 1002 } 1002 rfl

/-- C14: a returning call after which the cache is what it was before.  On a fresh
Northeria generator whose source draws 10000 twice, the first call
`NextRandom(2022, 12, 25)` returns 10000 and leaves the cache `20221225 ↦ 10000`; the
second call draws 10000, which is not a key, executes `cache_[20221225] = 10000`, returns
10000, and the cache after it is equal to the cache before it. -/
theorem NextRandom_cache_unmodified :
    ∃ st1 st2, NextRandom Policy.Northeria 1 2022 12 25
        (State.fresh (drawsOf [10000, 10000] 0)) = some (10000, st1) ∧
      st1.cache_ = [(20221225, 10000)] ∧
      NextRandom Policy.Northeria 1 2022 12 25 st1 = some (10000, st2) ∧
      st2.cache_ = st1.cache_ :=
  ⟨_, _, rfl, rfl, rfl, rfl⟩

/-! ## Termination of the retry loop -/

/-- With `10 ≤ year ≤ 9999`, `month ≤ 99` and `day ≤ 99` the date key exceeds the largest
value of the range of the policy. -/
theorem dateKey_above_range (p : Policy) (year month day : Nat)
    (hy : 10 ≤ year ∧ year ≤ 9999) (hm : month ≤ 99) (hd : day ≤ 99) :
    (range p).2 < ((dateKey p year month day : Nat) : Int) := by
  have hU : UINT = 4294967296 := by decide
  cases p
  · have hlt : year * 1000 + month * 100 + day < 4294967296 := by omega
    rw [(dateKey_eq year month day).2, hU, Nat.mod_eq_of_lt hlt]
    simp only [range]
    omega
  · have hlt : year * 10000 + month * 100 + day < 4294967296 := by omega
    rw [(dateKey_eq year month day).1, hU, Nat.mod_eq_of_lt hlt]
    simp only [range]
    omega

/-- A draw of the range of the policy is not a key of a cache whose keys all exceed the
range. -/
theorem find_draw_none (p : Policy) (c : Cache) (x : Int)
    (hx : (range p).1 ≤ x ∧ x ≤ (range p).2) (hc : ∀ e ∈ c, (range p).2 < ((e.1 : Nat) : Int)) :
    c.find (toUnsigned x) = none := by
  have hU : (UINT : Int) = 4294967296 := by decide
  have h0 : 0 ≤ x ∧ x < (UINT : Int) := by
    cases p <;> simp only [range] at hx <;> omega
  apply find_none_of_keys_ne
  intro e he
  have := hc e he
  rw [toUnsigned_of_nonneg x h0.1 h0.2]
  omega

/-- From a state whose cache keys all exceed the range and whose draws are in range, every
call of a sequence with four-digit years returns on its first iteration. -/
theorem runCalls_first_draws (p : Policy) : ∀ (calls : List Date) (st : State),
    (∀ n, (range p).1 ≤ st.eng_ n ∧ st.eng_ n ≤ (range p).2) →
    (∀ e ∈ st.cache_, (range p).2 < ((e.1 : Nat) : Int)) →
    (∀ c ∈ calls, (10 ≤ c.1 ∧ c.1 ≤ 9999) ∧ c.2.1 ≤ 99 ∧ c.2.2 ≤ 99) →
    ∃ st', runCalls p 1 calls st = some ((List.range calls.length).map st.eng_, st') ∧
      (∀ e ∈ st'.cache_, (range p).2 < ((e.1 : Nat) : Int)) ∧
      st'.eng_ = fun n => st.eng_ (n + calls.length) := by
  intro calls
  induction calls with
  | nil =>
    intro st _ hc _
    exact ⟨st, rfl, hc, rfl⟩
  | cons c rest ih =>
    intro st hrange hc hcalls
    obtain ⟨year, month, day⟩ := c
    have hb := hcalls (year, month, day) (List.mem_cons_self _ _)
    have hcall : NextRandom p 1 year month day st = some (st.eng_ 0,
        { cache_ := st.cache_.assign (dateKey p year month day) (st.eng_ 0),
          eng_ := fun n => st.eng_ (n + (0 + 1)) }) :=
      nextRandomLoop_of_free _ 0 1 st (by omega) (find_draw_none p _ _ (hrange 0) hc)
        (fun i hi => absurd hi (by omega))
    obtain ⟨st', hrun, hkeys, heng⟩ := ih
      { cache_ := st.cache_.assign (dateKey p year month day) (st.eng_ 0),
        eng_ := fun n => st.eng_ (n + (0 + 1)) }
      (fun n => hrange _)
      (by
        intro e he
        rcases mem_assign _ _ _ _ he with h | h
        · exact hc e h
        · rw [h]
          exact dateKey_above_range p year month day hb.1 hb.2.1 hb.2.2)
      (fun c hc => hcalls c (List.mem_cons_of_mem _ hc))
    refine ⟨st', ?_, hkeys, ?_⟩
    · simp only [runCalls, hcall, hrun, List.length_cons]
      rw [List.range_succ_eq_map, List.map_cons, List.map_map]
      rfl
    · rw [heng]
      funext n
      show st.eng_ (n + rest.length + (0 + 1)) = st.eng_ (n + (rest.length + 1))
      rfl

/-- C17: starting from the empty cache of a fresh generator with draws in the range of the
policy, after any sequence of calls with `10 ≤ year ≤ 9999`, `month ≤ 99`, `day ≤ 99`
every call has returned on its first iteration the value it drew first, every key of the
cache exceeds the largest value of the range (9999 for Southeria, 99999 for Northeria),
and the next call, for any date, returns the value it draws first as well. -/
theorem runCalls_fresh_never_redraws (p : Policy) (draws : Nat → Int) (calls : List Date)
    (hrange : ∀ n, (range p).1 ≤ draws n ∧ draws n ≤ (range p).2)
    (hcalls : ∀ c ∈ calls, (10 ≤ c.1 ∧ c.1 ≤ 9999) ∧ c.2.1 ≤ 99 ∧ c.2.2 ≤ 99) :
    ((range Policy.Southeria).2 = 9999 ∧ (range Policy.Northeria).2 = 99999) ∧
    ∃ st', runCalls p 1 calls (State.fresh draws) =
        some ((List.range calls.length).map draws, st') ∧
      (∀ e ∈ st'.cache_, (range p).2 < ((e.1 : Nat) : Int)) ∧
      (∀ (year month day fuel : Nat), 0 < fuel → ∃ st'',
        NextRandom p fuel year month day st' = some (draws calls.length, st'')) := by
  refine ⟨⟨rfl, rfl⟩, ?_⟩
  obtain ⟨st', hrun, hkeys, heng⟩ := runCalls_first_draws p calls (State.fresh draws) hrange
    (by intro e he; simp [State.fresh] at he) hcalls
  refine ⟨st', hrun, hkeys, ?_⟩
  intro year month day fuel hf
  have h0 : st'.eng_ 0 = draws calls.length := by
    rw [heng]
    show draws (0 + calls.length) = draws calls.length
    rw [Nat.zero_add]
  have hin : (range p).1 ≤ st'.eng_ 0 ∧ st'.eng_ 0 ≤ (range p).2 := by
    rw [h0]; exact hrange _
  have := nextRandomLoop_of_free (dateKey p year month day) 0 fuel st' hf
    (find_draw_none p _ _ hin hkeys) (fun i hi => absurd hi (by omega))
  rw [h0] at this
  exact ⟨_, this⟩

/-- An instance of the four-digit-year property: a fresh Southeria generator that always
draws 5000, called twice for (2023, 5, 17) and once for (2024, 1, 5). -/
theorem runCalls_fresh_never_redraws_witness :
    ((range Policy.Southeria).2 = 9999 ∧ (range Policy.Northeria).2 = 99999) ∧
    ∃ st', runCalls Policy.Southeria 1 [(2023, 5, 17), (2023, 5, 17), (2024, 1, 5)]
        (State.fresh (fun _ => 5000)) =
        some ((List.range [((2023 : Nat), (5 : Nat), (17 : Nat)), (2023, 5, 17),
          (2024, 1, 5)].length).map (fun _ => (5000 : Int)), st') ∧
      (∀ e ∈ st'.cache_, (range Policy.Southeria).2 < ((e.1 : Nat) : Int)) ∧
      (∀ (year month day fuel : Nat), 0 < fuel → ∃ st'',
        NextRandom Policy.Southeria fuel year month day st' = some ((5000 : Int), st'')) :=
  runCalls_fresh_never_redraws Policy.Southeria (fun _ => 5000)
    [(2023, 5, 17), (2023, 5, 17), (2024, 1, 5)]
    (by intro n; show (1000 : Int) ≤ 5000 ∧ (5000 : Int) ≤ 9999; decide) (by decide)

/-! ## Dates, identifiers and date keys -/

/-- C18: for every policy, sex and value `r`, when the random segment call returns `r` in
both calls, `Generate(sex, 2022, 1, 12)` and `Generate(sex, 2022, 11, 2)` return the same
identifier, although the dates differ. -/
theorem Generate_same_identifier (p : Policy) (fuel1 fuel2 : Nat) (sex : SexType)
    (st1 st1' st2 st2' : State) (r : Int)
    (h1 : NextRandom p fuel1 2022 1 12 st1 = some (r, st1'))
    (h2 : NextRandom p fuel2 2022 11 2 st2 = some (r, st2')) :
    ∃ out, Generate p fuel1 sex 2022 1 12 st1 = some (out, st1') ∧
      Generate p fuel2 sex 2022 11 2 st2 = some (out, st2') ∧
      ((2022, 1, 12) : Date) ≠ (2022, 11, 2) := by
  have hh : header p sex 2022 1 12 = header p sex 2022 11 2 := by
    cases p <;> cases sex <;> decide
  refine ⟨_, Generate_of_NextRandom p fuel1 sex 2022 1 12 st1 st1' r h1, ?_, by decide⟩
  rw [Generate_of_NextRandom p fuel2 sex 2022 11 2 st2 st2' r h2, hh]

/-- An instance of the coinciding identifiers: two fresh Northeria generators that both
draw 10031. -/
theorem Generate_same_identifier_witness :
    ∃ out, Generate Policy.Northeria 1 SexType.FEMALE 2022 1 12
        { cache_ := [], eng_ := fun _ => 10031 } =
        some (out, { cache_ := [(20220112, 10031)], eng_ := fun _ => 10031 }) ∧
      Generate Policy.Northeria 1 SexType.FEMALE 2022 11 2
        { cache_ := [], eng_ := fun _ => 10031 } =
        some (out, { cache_ := [(20221102, 10031)], eng_ := fun _ => 10031 }) ∧
      ((2022, 1, 12) : Date) ≠ (2022, 11, 2) :=
  Generate_same_identifier Policy.Northeria 1 1 SexType.FEMALE
    { cache_ := [], eng_ := fun _ => 10031 }
    { cache_ := [(20220112, 10031)], eng_ := fun _ => 10031 }
    { cache_ := [], eng_ := fun _ => 10031 }
    { cache_ := [(20221102, 10031)], eng_ := fun _ => 10031 } 10031 rfl rfl

/-- C19: the Northeria date key does not wrap and determines the date on all dates with
`year ≤ 400000`, `month ≤ 99`, `day ≤ 99`; the Southeria date key is 2024105 for both
(2023, 11, 5) and (2024, 1, 5), so that after a call for the first date a call for the
second replaces the cache entry the first call wrote. -/
theorem dateKey_injectivity :
    (∀ y1 m1 d1 y2 m2 d2 : Nat, y1 ≤ 400000 → m1 ≤ 99 → d1 ≤ 99 → y2 ≤ 400000 → m2 ≤ 99 →
        d2 ≤ 99 →
        dateKey Policy.Northeria y1 m1 d1 = y1 * 10000 + m1 * 100 + d1 ∧
        (dateKey Policy.Northeria y1 m1 d1 = dateKey Policy.Northeria y2 m2 d2 →
          y1 = y2 ∧ m1 = m2 ∧ d1 = d2)) ∧
    (dateKey Policy.Southeria 2023 11 5 = 2024105 ∧
      dateKey Policy.Southeria 2024 1 5 = 2024105 ∧ ((2023, 11, 5) : Date) ≠ (2024, 1, 5)) ∧
    (∀ (fuel1 fuel2 : Nat) (st st1 st2 : State) (r1 r2 : Int),
        NextRandom Policy.Southeria fuel1 2023 11 5 st = some (r1, st1) →
        NextRandom Policy.Southeria fuel2 2024 1 5 st1 = some (r2, st2) →
        st1.cache_.find 2024105 = some r1 ∧ st2.cache_.find 2024105 = some r2) := by
  have hU : UINT = 4294967296 := by decide
  refine ⟨?_, ⟨by decide, by decide, by decide⟩, ?_⟩
  · intro y1 m1 d1 y2 m2 d2 hy1 hm1 hd1 hy2 hm2 hd2
    have e1 : dateKey Policy.Northeria y1 m1 d1 = y1 * 10000 + m1 * 100 + d1 := by
      rw [(dateKey_eq y1 m1 d1).1, hU]
      exact Nat.mod_eq_of_lt (by omega)
    have e2 : dateKey Policy.Northeria y2 m2 d2 = y2 * 10000 + m2 * 100 + d2 := by
      rw [(dateKey_eq y2 m2 d2).1, hU]
      exact Nat.mod_eq_of_lt (by omega)
    refine ⟨e1, ?_⟩
    rw [e1, e2]
    intro h
    omega
  · intro fuel1 fuel2 st st1 st2 r1 r2 h1 h2
    obtain ⟨j1, -, -, -, -, hst1⟩ := nextRandomLoop_some _ fuel1 st r1 st1 h1
    obtain ⟨j2, -, -, -, -, hst2⟩ := nextRandomLoop_some _ fuel2 st1 r2 st2 h2
    have k1 : dateKey Policy.Southeria 2023 11 5 = 2024105 := by decide
    have k2 : dateKey Policy.Southeria 2024 1 5 = 2024105 := by decide
    rw [k1] at hst1
    rw [k2] at hst2
    constructor
    · rw [hst1]; exact find_assign_self _ _ _
    · rw [hst2]; exact find_assign_self _ _ _

/-- Instances of the date key properties: the Northeria keys of (2023, 11, 5) and
(2024, 1, 5) differ, and on a fresh Southeria generator drawing 1000 and then 1001 the
entry 2024105 ↦ 1000 written for (2023, 11, 5) is replaced by 2024105 ↦ 1001. -/
theorem dateKey_injectivity_witness :
    (dateKey Policy.Northeria 2023 11 5 = 2023 * 10000 + 11 * 100 + 5 ∧
      (dateKey Policy.Northeria 2023 11 5 = dateKey Policy.Northeria 2024 1 5 →
        2023 = 2024 ∧ 11 = 1 ∧ 5 = 5)) ∧
    (Cache.find [(2024105, (1000 : Int))] 2024105 = some 1000 ∧
      Cache.find [(2024105, (1001 : Int))] 2024105 = some 1001) :=
  ⟨dateKey_injectivity.1 2023 11 5 2024 1 5 (by decide) (by decide) (by decide) (by decide)
      (by decide) (by decide),
    dateKey_injectivity.2.2 1 1 (State.fresh (drawsOf [1000, 1001] 0))
      { cache_ := [(2024105, 1000)], eng_ := fun n => drawsOf [1000, 1001] 0 (n + 1) }
      { cache_ := [(2024105, 1001)], eng_ := fun n => drawsOf [1000, 1001] 0 (n + 1 + 1) }
      1000 1001 rfl rfl⟩

end SocialNumberGenerator
